import Mathlib

/-!
Verification of the offline evaluator core of the coach backend
(`api/coach.js`): the `normalize` / `includesWord` / `makeHint` /
`offlineEvaluate` helpers, shallowly embedded over `List Char`.

JavaScript strings are modelled as `List Char`.  `String.prototype.toLowerCase`
is modelled character-wise by the ASCII lowering `Char.toLower` (the regex
classes `\w`, `\s` involved in `normalize` are themselves ASCII/fixed-set, so
this covers the behaviour the evaluator relies on).
-/

set_option maxRecDepth 4000
set_option linter.unusedVariables false

namespace Coach

/-- The JavaScript `\s` character class (ECMAScript WhiteSpace ∪
LineTerminator): TAB..CR, SP, NBSP, OGHAM SP, U+2000–U+200A, LS, PS, NNBSP,
MMSP, IDEOGRAPHIC SP, BOM. -/
def isJsSpace (c : Char) : Bool :=
  c.toNat == 32 || (9 ≤ c.toNat && c.toNat ≤ 13) || c.toNat == 160 ||
  c.toNat == 5760 || (8192 ≤ c.toNat && c.toNat ≤ 8202) || c.toNat == 8232 ||
  c.toNat == 8233 || c.toNat == 8239 || c.toNat == 8287 || c.toNat == 12288 ||
  c.toNat == 65279

/-- The JavaScript `\w` character class `[A-Za-z0-9_]`. -/
def isWordChar (c : Char) : Bool :=
  (97 ≤ c.toNat && c.toNat ≤ 122) || (65 ≤ c.toNat && c.toNat ≤ 90) ||
  (48 ≤ c.toNat && c.toNat ≤ 57) || c.toNat == 95

/-- One character of `.replace(/[^\w\s-]/g, " ")`: characters outside
`\w`, `\s`, `-` (code 45) become a space. -/
def keepChar (c : Char) : Char :=
  if isWordChar c || isJsSpace c || c.toNat == 45 then c else ' '

/-- `.replace(/\s+/g, " ")`: every maximal run of `\s` characters becomes a
single space.  Within a run all characters except the last are dropped and the
last is emitted as `' '`. -/
def collapse : List Char → List Char
  | [] => []
  | [c] => if isJsSpace c then [' '] else [c]
  | c :: d :: rest =>
    if isJsSpace c && isJsSpace d then collapse (d :: rest)
    else (if isJsSpace c then ' ' else c) :: collapse (d :: rest)

/-- `String.prototype.trim()`: strip leading and trailing whitespace. -/
def trimList (l : List Char) : List Char :=
  ((l.dropWhile isJsSpace).reverse.dropWhile isJsSpace).reverse

/-- `function normalize(s){ return String(s||"").toLowerCase()
.replace(/[^\w\s-]/g," ").replace(/\s+/g," ").trim(); }` (coach.js:134). -/
def normalize (s : List Char) : List Char :=
  trimList (collapse ((s.map Char.toLower).map keepChar))

/-- `String.prototype.includes(pat)`: `pat` occurs contiguously in `s`. -/
def includesSub : List Char → List Char → Bool
  | [], pat => pat.isEmpty
  | c :: rest, pat => pat.isPrefixOf (c :: rest) || includesSub rest pat

/-- `function includesWord(text, base)` (coach.js:144-149): pad the normalized
text with one boundary space on each side and look for any of the candidate
inflections `base`, `base+"s"`, `base+"ed"`, `base+"ing"` (normalized), also
padded with boundary spaces. -/
def includesWord (text base : List Char) : Bool :=
  let t := [' '] ++ normalize text ++ [' ']
  let b := normalize base
  [b, b ++ "s".data, b ++ "ed".data, b ++ "ing".data].any
    (fun f => includesSub t ([' '] ++ f ++ [' ']))

/-- The name the spec uses for the function called `includesWord` in the source. -/
def containsWordForm (haystack base : List Char) : Bool :=
  includesWord haystack base

/-- `String(target).trim().split(/\s+/).filter(Boolean)` (coach.js:138):
whitespace-delimited non-empty tokens. -/
def hintWords (target : List Char) : List (List Char) :=
  ((trimList target).splitOnP isJsSpace).filter (fun w => !w.isEmpty)

/-- `words[0]?.[0] || ""` (coach.js:139): first character of the first word,
as a (possibly empty) string. -/
def hintFirst (target : List Char) : List Char :=
  match (hintWords target).head? with
  | some w => (match w.head? with | some c => [c] | none => [])
  | none => []

/-- `const wc = words.length` (coach.js:140). -/
def hintWordCount (target : List Char) : Nat :=
  (hintWords target).length

/-- `function makeHint(target)` (coach.js:137-142):
`` `Hint: starts with “${first}” and has ${wc} word${wc>1?"s":""}.` `` -/
def makeHint (target : List Char) : List Char :=
  "Hint: starts with “".data ++ hintFirst target ++ "” and has ".data ++
  (Nat.repr (hintWordCount target)).data ++ " word".data ++
  (if 1 < hintWordCount target then "s".data else []) ++ ".".data

/-- The record returned by the offline evaluator:
`{ assistant, verdict, explanation }`. -/
structure EvalResult where
  assistant : List Char
  verdict : List Char
  explanation : List Char
deriving DecidableEq

/-- `function offlineEvaluate({ task, target, definition, user_input,
alternatives = [] })` (coach.js:151-167). -/
def offlineEvaluate (task target definition user_input : List Char)
    (alternatives : List (List Char)) : EvalResult :=
  if task = "sentence".data then
    if (if includesSub target [' ']
        then includesSub (normalize user_input) (normalize target)
        else includesWord user_input target) then
      { assistant := "Nice! That uses the word naturally. Want to try another?".data
        verdict := "correct".data
        explanation := [] }
    else
      { assistant := "Not quite. Try using “".data ++ target ++
          "” directly in the sentence. ".data ++ makeHint target ++
          " How would you rewrite it?".data
        verdict := "incorrect".data
        explanation := "Target not clearly used.".data }
  else
    if normalize user_input = normalize target ∨
        normalize user_input ∈ alternatives.map normalize then
      { assistant := "Correct — “".data ++ target ++ "”. Want to use it in a sentence?".data
        verdict := "correct".data
        explanation := [] }
    else
      { assistant := "Good try, but that doesn\x27t match. ".data ++ makeHint target ++
          " Want to guess again?".data
        verdict := "incorrect".data
        explanation := "Doesn\x27t match target/alternatives.".data }

/-- The character class `[a-z0-9_ -]` named by the spec as the alphabet of
`normalize` output: lowercase letters, digits, underscore, hyphen, space. -/
def isOutChar (c : Char) : Bool :=
  (97 ≤ c.toNat && c.toNat ≤ 122) || (48 ≤ c.toNat && c.toNat ≤ 57) ||
  c.toNat == 95 || c.toNat == 45 || c.toNat == 32

/-- Spec-side predicate: no two consecutive space characters. -/
def noTwoSpaces : List Char → Bool
  | a :: b :: rest => !(a == ' ' && b == ' ') && noTwoSpaces (b :: rest)
  | _ => true

/-- Spec-side predicate: the list neither starts nor ends with a space. -/
def noEdgeSpace (l : List Char) : Bool :=
  !(l.head? == some ' ') && !(l.getLast? == some ' ')

/-! ### Character-level lemmas -/

theorem toNat_charOfNat_of_lt {n : Nat} (h : n < 55296) : (Char.ofNat n).toNat = n := by
  unfold Char.ofNat
  rw [dif_pos (Or.inl h)]
  rfl

theorem char_eq_of_toNat {c d : Char} (h : c.toNat = d.toNat) : c = d :=
  Char.eq_of_val_eq (UInt32.ext h)

theorem toLower_toNat_of_upper {c : Char} (h : 65 ≤ c.toNat ∧ c.toNat ≤ 90) :
    (Char.toLower c).toNat = c.toNat + 32 := by
  unfold Char.toLower
  rw [if_pos h]
  exact toNat_charOfNat_of_lt (by omega)

theorem toLower_eq_self {c : Char} (h : ¬ (65 ≤ c.toNat ∧ c.toNat ≤ 90)) :
    Char.toLower c = c := by
  unfold Char.toLower
  rw [if_neg h]

theorem stage2_char_ok (c : Char) :
    isJsSpace (keepChar (Char.toLower c)) = true ∨ isOutChar (keepChar (Char.toLower c)) = true := by
  have hd : ¬ (65 ≤ (Char.toLower c).toNat ∧ (Char.toLower c).toNat ≤ 90) := by
    by_cases h : 65 ≤ c.toNat ∧ c.toNat ≤ 90
    · rw [toLower_toNat_of_upper h]; omega
    · rw [toLower_eq_self h]; exact h
  generalize Char.toLower c = d at hd
  unfold keepChar
  by_cases hk : (isWordChar d || isJsSpace d || d.toNat == 45) = true
  · rw [if_pos hk]
    simp only [isWordChar, isJsSpace, isOutChar, Bool.or_eq_true, Bool.and_eq_true,
      decide_eq_true_eq, beq_iff_eq] at hk ⊢
    omega
  · rw [if_neg hk]
    left; decide

/-! ### Lemmas about `collapse` -/

theorem collapse_head (c : Char) (l : List Char) :
    (collapse (c :: l)).head? = some (if isJsSpace c then ' ' else c) := by
  induction l generalizing c with
  | nil =>
    simp only [collapse]
    by_cases h : isJsSpace c = true
    · rw [if_pos h, if_pos h]
      rfl
    · rw [if_neg h, if_neg h]
      rfl
  | cons d rest ih =>
    simp only [collapse]
    by_cases h : (isJsSpace c && isJsSpace d) = true
    · rw [if_pos h, ih d]
      rw [Bool.and_eq_true] at h
      rw [if_pos h.1, if_pos h.2]
    · rw [if_neg h]
      rfl

theorem collapse_chain (l : List Char) :
    List.Chain' (fun a b => ¬ (isJsSpace a = true ∧ isJsSpace b = true)) (collapse l) := by
  induction l with
  | nil => exact List.chain'_nil
  | cons c cs ih =>
    cases cs with
    | nil =>
      simp only [collapse]
      by_cases h : isJsSpace c = true
      · rw [if_pos h]; exact List.chain'_singleton _
      · rw [if_neg h]; exact List.chain'_singleton _
    | cons d rest =>
      simp only [collapse]
      by_cases h : (isJsSpace c && isJsSpace d) = true
      · rw [if_pos h]; exact ih
      · rw [if_neg h]
        rw [List.chain'_cons']
        refine ⟨?_, ih⟩
        intro y hy
        rw [collapse_head d rest] at hy
        simp only [Option.mem_def, Option.some.injEq] at hy
        subst hy
        by_cases hd : isJsSpace d = true
        · have hc : isJsSpace c = false := by
            revert h
            cases isJsSpace c
            · intro _; rfl
            · intro hcontra; exact absurd (by rw [hd]; rfl) hcontra
          rw [if_neg (by simp [hc])]
          intro hpair
          rw [hc] at hpair
          exact absurd hpair.1 (by simp)
        · rw [if_neg hd]
          intro hpair
          exact hd hpair.2

theorem collapse_mem {l : List Char} {c : Char} (h : c ∈ collapse l) :
    c = ' ' ∨ (c ∈ l ∧ isJsSpace c = false) := by
  induction l with
  | nil => exact absurd h (List.not_mem_nil c)
  | cons x cs ih =>
    cases cs with
    | nil =>
      simp only [collapse] at h
      by_cases hx : isJsSpace x = true
      · rw [if_pos hx] at h
        left
        simpa using h
      · rw [if_neg hx] at h
        right
        refine ⟨by simpa using h, ?_⟩
        have hcx : c = x := by simpa using h
        subst hcx
        exact Bool.eq_false_iff.mpr hx
    | cons d rest =>
      simp only [collapse] at h
      by_cases hb : (isJsSpace x && isJsSpace d) = true
      · rw [if_pos hb] at h
        rcases ih h with hsp | ⟨hm, hns⟩
        · exact Or.inl hsp
        · exact Or.inr ⟨List.mem_cons_of_mem x hm, hns⟩
      · rw [if_neg hb] at h
        rcases List.mem_cons.mp h with hc | hrest
        · by_cases hx : isJsSpace x = true
          · rw [if_pos hx] at hc
            exact Or.inl hc
          · rw [if_neg hx] at hc
            subst hc
            exact Or.inr ⟨List.mem_cons_self _ _, Bool.eq_false_iff.mpr hx⟩
        · rcases ih hrest with hsp | ⟨hm, hns⟩
          · exact Or.inl hsp
          · exact Or.inr ⟨List.mem_cons_of_mem x hm, hns⟩

theorem collapse_eq_self {l : List Char}
    (hsp : ∀ c ∈ l, isJsSpace c = true → c = ' ')
    (hch : List.Chain' (fun a b => ¬ (isJsSpace a = true ∧ isJsSpace b = true)) l) :
    collapse l = l := by
  induction l with
  | nil => rfl
  | cons x cs ih =>
    cases cs with
    | nil =>
      simp only [collapse]
      by_cases hx : isJsSpace x = true
      · rw [if_pos hx, hsp x (List.mem_cons_self _ _) hx]
      · rw [if_neg hx]
    | cons d rest =>
      simp only [collapse]
      rw [List.chain'_cons] at hch
      have hb : (isJsSpace x && isJsSpace d) = false := by
        rcases Bool.eq_false_or_eq_true (isJsSpace x) with hx | hx
        · rcases Bool.eq_false_or_eq_true (isJsSpace d) with hd | hd
          · exact absurd ⟨hx, hd⟩ hch.1
          · rw [hd, Bool.and_false]
        · rw [hx, Bool.false_and]
      rw [if_neg (by simp [hb])]
      have htail : collapse (d :: rest) = d :: rest :=
        ih (fun c hc hsc => hsp c (List.mem_cons_of_mem x hc) hsc) hch.2
      rw [htail]
      by_cases hx : isJsSpace x = true
      · rw [if_pos hx, hsp x (List.mem_cons_self _ _) hx]
      · rw [if_neg hx]

/-! ### Lemmas about `dropWhile` and `trimList` -/

theorem dw_head {p : Char → Bool} {l : List Char} {x : Char}
    (h : (l.dropWhile p).head? = some x) : p x = false := by
  induction l with
  | nil => exact absurd h (by simp)
  | cons c cs ih =>
    rw [List.dropWhile_cons] at h
    split at h
    · exact ih h
    · next hc =>
      have hcx : c = x := by simpa using h
      subst hcx
      exact Bool.eq_false_iff.mpr hc

theorem dw_getLast {p : Char → Bool} {m : List Char} {x : Char}
    (h : (m.dropWhile p).getLast? = some x) : m.getLast? = some x := by
  induction m with
  | nil => exact absurd h (by simp)
  | cons c cs ih =>
    rw [List.dropWhile_cons] at h
    split at h
    · have h2 := ih h
      cases cs with
      | nil => exact absurd h2 (by simp)
      | cons d ds =>
        rw [List.getLast?_cons_cons]
        exact h2
    · exact h

theorem dw_eq_self {p : Char → Bool} {l : List Char}
    (h : ∀ x, l.head? = some x → p x = false) : l.dropWhile p = l := by
  cases l with
  | nil => rfl
  | cons c cs =>
    rw [List.dropWhile_cons_of_neg]
    simp [h c rfl]

theorem trim_mem {l : List Char} {c : Char} (h : c ∈ trimList l) : c ∈ l := by
  unfold trimList at h
  rw [List.mem_reverse] at h
  have h1 := (List.dropWhile_sublist _).subset h
  rw [List.mem_reverse] at h1
  exact (List.dropWhile_sublist _).subset h1

theorem trim_chain {l : List Char} {R : Char → Char → Prop}
    (hsymm : ∀ a b, R a b → R b a) (h : List.Chain' R l) :
    List.Chain' R (trimList l) := by
  unfold trimList
  have h1 : List.Chain' R (l.dropWhile isJsSpace) := h.suffix (List.dropWhile_suffix _)
  have h2 : List.Chain' R ((l.dropWhile isJsSpace).reverse) :=
    List.chain'_reverse.mpr (h1.imp (fun a b hab => hsymm a b hab))
  have h3 : List.Chain' R (((l.dropWhile isJsSpace).reverse).dropWhile isJsSpace) :=
    h2.suffix (List.dropWhile_suffix _)
  exact List.chain'_reverse.mpr (h3.imp (fun a b hab => hsymm a b hab))

theorem trim_head_not {l : List Char} {x : Char}
    (h : (trimList l).head? = some x) : isJsSpace x = false := by
  unfold trimList at h
  rw [List.head?_reverse] at h
  have h2 := dw_getLast h
  rw [List.getLast?_reverse] at h2
  exact dw_head h2

theorem trim_last_not {l : List Char} {x : Char}
    (h : (trimList l).getLast? = some x) : isJsSpace x = false := by
  unfold trimList at h
  rw [List.getLast?_reverse] at h
  exact dw_head h

theorem trim_eq_self {l : List Char}
    (hh : ∀ x, l.head? = some x → isJsSpace x = false)
    (hl : ∀ x, l.getLast? = some x → isJsSpace x = false) :
    trimList l = l := by
  unfold trimList
  rw [dw_eq_self hh]
  rw [dw_eq_self (fun x hx => hl x (by rwa [List.head?_reverse] at hx))]
  exact List.reverse_reverse l

/-! ### Invariants of `normalize` output -/

theorem mem_stage2 {s : List Char} {c : Char}
    (h : c ∈ (s.map Char.toLower).map keepChar) :
    isJsSpace c = true ∨ isOutChar c = true := by
  simp only [List.mem_map] at h
  obtain ⟨a, ⟨b, _, rfl⟩, rfl⟩ := h
  exact stage2_char_ok b

theorem normalize_chars {s : List Char} {c : Char} (h : c ∈ normalize s) :
    isOutChar c = true := by
  unfold normalize at h
  have h1 := trim_mem h
  rcases collapse_mem h1 with hc | ⟨hm, hns⟩
  · subst hc
    decide
  · rcases mem_stage2 hm with hsp | hout
    · rw [hsp] at hns
      cases hns
    · exact hout

theorem normalize_chain (s : List Char) :
    List.Chain' (fun a b => ¬ (isJsSpace a = true ∧ isJsSpace b = true)) (normalize s) := by
  unfold normalize
  exact trim_chain (fun a b hab hpair => hab ⟨hpair.2, hpair.1⟩) (collapse_chain _)

theorem normalize_head_not {s : List Char} {x : Char}
    (h : (normalize s).head? = some x) : isJsSpace x = false := by
  unfold normalize at h
  exact trim_head_not h

theorem normalize_last_not {s : List Char} {x : Char}
    (h : (normalize s).getLast? = some x) : isJsSpace x = false := by
  unfold normalize at h
  exact trim_last_not h

/-! ### Fixpoint lemmas for idempotence -/

theorem map_eq_self_of {f : Char → Char} {l : List Char}
    (h : ∀ c ∈ l, f c = c) : l.map f = l := by
  induction l with
  | nil => rfl
  | cons c cs ih =>
    rw [List.map_cons, h c (List.mem_cons_self _ _), ih (fun x hx => h x (List.mem_cons_of_mem c hx))]

theorem toLower_fix_of_out {c : Char} (h : isOutChar c = true) : Char.toLower c = c := by
  apply toLower_eq_self
  simp only [isOutChar, Bool.or_eq_true, Bool.and_eq_true, decide_eq_true_eq, beq_iff_eq] at h
  omega

theorem keepChar_fix_of_out {c : Char} (h : isOutChar c = true) : keepChar c = c := by
  have hcond : (isWordChar c || isJsSpace c || c.toNat == 45) = true := by
    simp only [isWordChar, isJsSpace, isOutChar, Bool.or_eq_true, Bool.and_eq_true,
      decide_eq_true_eq, beq_iff_eq] at h ⊢
    omega
  unfold keepChar
  rw [if_pos hcond]

theorem space_char_eq {c : Char} (hout : isOutChar c = true) (hsp : isJsSpace c = true) :
    c = ' ' := by
  simp only [isOutChar, isJsSpace, Bool.or_eq_true, Bool.and_eq_true,
    decide_eq_true_eq, beq_iff_eq] at hout hsp
  have h32 : c.toNat = 32 := by omega
  exact char_eq_of_toNat (h32.trans (rfl : (32 : Nat) = (' ').toNat))

theorem chain_to_noTwoSpaces {l : List Char}
    (h : List.Chain' (fun a b => ¬ (isJsSpace a = true ∧ isJsSpace b = true)) l) :
    noTwoSpaces l = true := by
  induction l with
  | nil => rfl
  | cons a cs ih =>
    cases cs with
    | nil => rfl
    | cons b rest =>
      rw [List.chain'_cons] at h
      simp only [noTwoSpaces, Bool.and_eq_true]
      refine ⟨?_, ih h.2⟩
      by_cases ha : a = ' '
      · by_cases hb : b = ' '
        · exact absurd ⟨by rw [ha]; rfl, by rw [hb]; rfl⟩ h.1
        · simp [beq_iff_eq, hb]
      · simp [beq_iff_eq, ha]

/-! ### Small disequalities used when case-splitting the evaluator -/

theorem correct_ne_incorrect : ¬ (("correct".data : List Char) = "incorrect".data) := by
  decide

theorem incorrect_ne_correct : ¬ (("incorrect".data : List Char) = "correct".data) := by
  decide

theorem expl_sentence_ne_nil : ¬ (("Target not clearly used.".data : List Char) = []) := by
  decide

theorem expl_name_ne_nil :
    ¬ (("Doesn\x27t match target/alternatives.".data : List Char) = []) := by
  decide

/-! ### Claim theorems -/

/-- Claim C6: `normalize` is idempotent: for every string `s`,
`normalize (normalize s)` equals `normalize s`. -/
theorem claim_C6 : ∀ s : List Char, normalize (normalize s) = normalize s := by
  intro s
  have hc : ∀ c ∈ normalize s, isOutChar c = true := fun c h => normalize_chars h
  have h1 : (normalize s).map Char.toLower = normalize s :=
    map_eq_self_of (fun c h => toLower_fix_of_out (hc c h))
  have h2 : (normalize s).map keepChar = normalize s :=
    map_eq_self_of (fun c h => keepChar_fix_of_out (hc c h))
  have h3 : collapse (normalize s) = normalize s :=
    collapse_eq_self (fun c h hsp => space_char_eq (hc c h) hsp) (normalize_chain s)
  have h4 : trimList (normalize s) = normalize s :=
    trim_eq_self (fun x hx => normalize_head_not hx) (fun x hx => normalize_last_not hx)
  calc normalize (normalize s)
      = trimList (collapse (((normalize s).map Char.toLower).map keepChar)) := rfl
    _ = normalize s := by rw [h1, h2, h3, h4]

/-- Claim C7: for every input string, the output of `normalize` contains only
characters from the class `[a-z0-9_ -]`, has no two consecutive spaces, and
has no leading or trailing space. -/
theorem claim_C7 : ∀ s : List Char,
    (normalize s).all isOutChar = true ∧
    noTwoSpaces (normalize s) = true ∧
    noEdgeSpace (normalize s) = true := by
  intro s
  refine ⟨?_, chain_to_noTwoSpaces (normalize_chain s), ?_⟩
  · rw [List.all_eq_true]
    intro c hcm
    exact normalize_chars hcm
  · unfold noEdgeSpace
    rw [Bool.and_eq_true]
    constructor
    · cases hh : (normalize s).head? with
      | none => rfl
      | some x =>
        have hx := normalize_head_not hh
        have hxs : x ≠ ' ' := by
          intro hcon
          subst hcon
          exact absurd hx (by decide)
        simp [hxs]
    · cases hh : (normalize s).getLast? with
      | none => rfl
      | some x =>
        have hx := normalize_last_not hh
        have hxs : x ≠ ' ' := by
          intro hcon
          subst hcon
          exact absurd hx (by decide)
        simp [hxs]

/-- Claim C1, counterexample: for the "sentence" task the incorrect result
does contain the literal target string inside its hint-bearing assistant
message, so the claim as stated is false. -/
theorem claim_C1_counterexample :
    (offlineEvaluate "sentence".data "reduce".data [] "I like food".data []).verdict =
      "incorrect".data ∧
    includesSub (offlineEvaluate "sentence".data "reduce".data [] "I like food".data
      []).assistant "reduce".data = true := by
  decide

/-- Claim C1, amended: for the "name" task, the incorrect result message is a
function of the target only through its first character and its word count,
so it can leak at most those. -/
theorem claim_C1_amended : ∀ t₁ t₂ d₁ d₂ u₁ u₂ : List Char, ∀ a₁ a₂ : List (List Char),
    hintFirst t₁ = hintFirst t₂ →
    hintWordCount t₁ = hintWordCount t₂ →
    (offlineEvaluate "name".data t₁ d₁ u₁ a₁).verdict = "incorrect".data →
    (offlineEvaluate "name".data t₂ d₂ u₂ a₂).verdict = "incorrect".data →
    (offlineEvaluate "name".data t₁ d₁ u₁ a₁).assistant =
      (offlineEvaluate "name".data t₂ d₂ u₂ a₂).assistant := by
  intro t₁ t₂ d₁ d₂ u₁ u₂ a₁ a₂ hf hw hv₁ hv₂
  have hmk : makeHint t₁ = makeHint t₂ := by
    unfold makeHint
    rw [hf, hw]
  have hns : ¬ ("name".data = "sentence".data) := by decide
  unfold offlineEvaluate at hv₁ hv₂ ⊢
  rw [if_neg hns] at hv₁
  rw [if_neg hns] at hv₂
  rw [if_neg hns, if_neg hns]
  by_cases h₁ : normalize u₁ = normalize t₁ ∨ normalize u₁ ∈ a₁.map normalize
  · rw [if_pos h₁] at hv₁
    exact absurd hv₁ correct_ne_incorrect
  by_cases h₂ : normalize u₂ = normalize t₂ ∨ normalize u₂ ∈ a₂.map normalize
  · rw [if_pos h₂] at hv₂
    exact absurd hv₂ correct_ne_incorrect
  rw [if_neg h₁, if_neg h₂]
  show "Good try, but that doesn\x27t match. ".data ++ makeHint t₁ ++
      " Want to guess again?".data = "Good try, but that doesn\x27t match. ".data ++
      makeHint t₂ ++ " Want to guess again?".data
  rw [hmk]

/-- Claim C1, amended, witness at concrete inputs: targets "cat" and "cow"
share first character and word count, both guesses are incorrect, and the two
incorrect messages coincide. -/
theorem claim_C1_amended_witness :
    (offlineEvaluate "name".data "cat".data [] "dog".data []).assistant =
      (offlineEvaluate "name".data "cow".data [] "dog".data []).assistant :=
  claim_C1_amended "cat".data "cow".data [] [] "dog".data "dog".data [] []
    (by decide) (by decide) (by decide) (by decide)

/-- Claim C2, counterexample: `containsWordForm "I consumed too much sugar"
"consume"` is false on the code, because the candidate set is
`{consume, consumes, consumeed, consumeing}` which does not contain
"consumed". -/
theorem claim_C2_counterexample :
    ¬ (containsWordForm "I consumed too much sugar".data "consume".data = true) := by
  decide

/-- Claim C2, amended: the candidate inflection set does not cover the
e-final past form "consumed" (base + "ed" gives "consumeed"), so the call
returns false; the uninflected form does match as a whole token. -/
theorem claim_C2_amended :
    containsWordForm "I consumed too much sugar".data "consume".data = false ∧
    containsWordForm "I consume too much sugar".data "consume".data = true := by
  decide

/-- Claim C3, counterexample: `normalize` keeps hyphens, so
`normalize "junk-food"` differs from `normalize "junk food"`, and the "name"
evaluation of guess "junk-food" against target "junk food" with empty
alternatives is incorrect. -/
theorem claim_C3_counterexample :
    normalize "junk-food".data ≠ normalize "junk food".data ∧
    (offlineEvaluate "name".data "junk food".data [] "junk-food".data []).verdict =
      "incorrect".data := by
  decide

/-- Claim C3, amended: `normalize` preserves hyphens as literal characters
(hyphen and space are distinct separator classes), so hyphen/space-insensitive
matching is obtained only by listing the hyphenated variant in the
alternatives. -/
theorem claim_C3_amended :
    normalize "junk-food".data = "junk-food".data ∧
    normalize "junk food".data = "junk food".data ∧
    (offlineEvaluate "name".data "junk food".data [] "junk-food".data
      ["junk-food".data]).verdict = "correct".data := by
  decide

/-- Claim C4, counterexample: the code branches on whether the RAW target
contains a space character, not the normalized target.  The target " x"
normalizes to the single word "x", so by the claim success should be
`containsWordForm`, which fails on "taxi"; yet the code takes the phrase
branch and returns "correct". -/
theorem claim_C4_counterexample :
    normalize " x".data = "x".data ∧
    includesSub (normalize " x".data) [' '] = false ∧
    containsWordForm "taxi".data " x".data = false ∧
    (offlineEvaluate "sentence".data " x".data [] "taxi".data []).verdict =
      "correct".data := by
  decide

/-- Claim C4, amended: for task "sentence" the branch is chosen by whether the
raw target contains a literal space character: if it does, success is
normalized substring containment; otherwise success is `containsWordForm`. -/
theorem claim_C4_amended : ∀ target definition user_input : List Char,
    ∀ alternatives : List (List Char),
    (offlineEvaluate "sentence".data target definition user_input alternatives).verdict =
        "correct".data ↔
      (if includesSub target [' ']
        then includesSub (normalize user_input) (normalize target)
        else includesWord user_input target) = true := by
  intro t d u a
  unfold offlineEvaluate
  rw [if_pos rfl]
  by_cases h : (if includesSub t [' ']
      then includesSub (normalize u) (normalize t)
      else includesWord u t) = true
  · rw [if_pos h]
    exact iff_of_true rfl h
  · rw [if_neg h]
    exact iff_of_false (fun hcon => incorrect_ne_correct hcon) h

/-- Claim C4, amended, witness: a multi-word target evaluated through the
phrase branch yields "correct" on a sentence containing it. -/
theorem claim_C4_amended_witness :
    (offlineEvaluate "sentence".data "junk food".data []
      "I avoid eating junk food every day".data []).verdict = "correct".data :=
  (claim_C4_amended "junk food".data [] "I avoid eating junk food every day".data []).mpr
    (by decide)

/-- Claim C5: for task "name" the verdict is "correct" exactly when the
normalized guess equals the normalized target or belongs to the normalized
alternatives; in particular guess "Diet" against target "diet" is correct. -/
theorem claim_C5 :
    (∀ target definition user_input : List Char, ∀ alternatives : List (List Char),
      ((offlineEvaluate "name".data target definition user_input alternatives).verdict =
          "correct".data ↔
        (normalize user_input = normalize target ∨
          normalize user_input ∈ alternatives.map normalize))) ∧
    (offlineEvaluate "name".data "diet".data "usual food and drink".data "Diet".data
      []).verdict = "correct".data := by
  constructor
  · intro t d u a
    unfold offlineEvaluate
    rw [if_neg (by decide : ¬ ("name".data = "sentence".data))]
    by_cases h : normalize u = normalize t ∨ normalize u ∈ a.map normalize
    · rw [if_pos h]
      exact iff_of_true rfl h
    · rw [if_neg h]
      exact iff_of_false (fun hcon => incorrect_ne_correct hcon) h
  · decide

/-- Claim C5, witness: the concrete "Diet"/"diet" instance through the main
equivalence. -/
theorem claim_C5_witness :
    (offlineEvaluate "name".data "diet".data "usual food and drink".data "Diet".data
      []).verdict = "correct".data :=
  (claim_C5.1 "diet".data "usual food and drink".data "Diet".data []).mpr
    (Or.inl (by decide))

/-- Claim C8: an empty target in the "sentence" task makes the empty candidate
form match the padded empty haystack, so empty target plus empty input is
judged "correct". -/
theorem claim_C8 : ∀ definition : List Char,
    (offlineEvaluate "sentence".data [] definition [] []).verdict = "correct".data ∧
    containsWordForm [] [] = true := by
  intro d
  exact ⟨rfl, rfl⟩

/-- Claim C9: the offline evaluator only ever returns verdict "correct" or
"incorrect" (never "unsure"), and its explanation is empty exactly when the
verdict is "correct". -/
theorem claim_C9 : ∀ task target definition user_input : List Char,
    ∀ alternatives : List (List Char),
    ((offlineEvaluate task target definition user_input alternatives).verdict =
        "correct".data ∨
      (offlineEvaluate task target definition user_input alternatives).verdict =
        "incorrect".data) ∧
    ((offlineEvaluate task target definition user_input alternatives).explanation = [] ↔
      (offlineEvaluate task target definition user_input alternatives).verdict =
        "correct".data) := by
  intro t g d u a
  unfold offlineEvaluate
  by_cases ht : t = "sentence".data
  · rw [if_pos ht]
    by_cases hok : (if includesSub g [' ']
        then includesSub (normalize u) (normalize g)
        else includesWord u g) = true
    · rw [if_pos hok]
      exact ⟨Or.inl rfl, iff_of_true rfl rfl⟩
    · rw [if_neg hok]
      exact ⟨Or.inr rfl, iff_of_false (fun hcon => expl_sentence_ne_nil hcon)
        (fun hcon => incorrect_ne_correct hcon)⟩
  · rw [if_neg ht]
    by_cases hok : normalize u = normalize g ∨ normalize u ∈ a.map normalize
    · rw [if_pos hok]
      exact ⟨Or.inl rfl, iff_of_true rfl rfl⟩
    · rw [if_neg hok]
      exact ⟨Or.inr rfl, iff_of_false (fun hcon => expl_name_ne_nil hcon)
        (fun hcon => incorrect_ne_correct hcon)⟩

/-- Claim C9, witness: the invariant instantiated at a concrete incorrect
"name" evaluation. -/
theorem claim_C9_witness :
    (offlineEvaluate "name".data "cat".data [] "dog".data []).verdict = "correct".data ∨
      (offlineEvaluate "name".data "cat".data [] "dog".data []).verdict =
        "incorrect".data :=
  (claim_C9 "name".data "cat".data [] "dog".data []).1

/-- Claim C10: the offline evaluator is deterministic: two invocations with
identical task, target, definition, user input and alternatives yield the same
result record. -/
theorem claim_C10 : ∀ t₁ t₂ g₁ g₂ d₁ d₂ u₁ u₂ : List Char,
    ∀ a₁ a₂ : List (List Char),
    t₁ = t₂ → g₁ = g₂ → d₁ = d₂ → u₁ = u₂ → a₁ = a₂ →
    offlineEvaluate t₁ g₁ d₁ u₁ a₁ = offlineEvaluate t₂ g₂ d₂ u₂ a₂ := by
  intro t₁ t₂ g₁ g₂ d₁ d₂ u₁ u₂ a₁ a₂ ht hg hd hu ha
  rw [ht, hg, hd, hu, ha]

/-- Claim C10, witness: the determinism theorem applied at a concrete
invocation. -/
theorem claim_C10_witness :
    offlineEvaluate "name".data "diet".data [] "diet".data [] =
      offlineEvaluate "name".data "diet".data [] "diet".data [] :=
  claim_C10 "name".data "name".data "diet".data "diet".data [] [] "diet".data
    "diet".data [] [] rfl rfl rfl rfl rfl

/-! ### Embedding sanity checks on concrete values -/

theorem sanity_normalize_punct : normalize "Héllo,  World!".data = "h llo world".data := by
  decide

theorem sanity_word_boundary : includesWord "the category is food".data "cat".data = false := by
  decide

theorem sanity_hint_phrase :
    makeHint "junk food".data = "Hint: starts with “j” and has 2 words.".data := by
  decide

theorem sanity_hint_single :
    makeHint "reduce".data = "Hint: starts with “r” and has 1 word.".data := by
  decide

theorem sanity_sentence_incorrect :
    (offlineEvaluate "sentence".data "reduce".data [] "I like food".data []).explanation =
      "Target not clearly used.".data := by
  decide

end Coach
